import Mathlib

/-!
Verification development for the sampling core of the `regain` repository
(`regain/bayesian/sampling.py`): the elliptical slice sampler
`elliptical_slice`, the kernel-hyperparameter Metropolis-Hastings sampler
`sample_hyper_kernel` with its log-posterior `logpunorm`, and the
Cholesky-factor component sweep `sample_L2` / `_sample_ell_comp` /
`logp_ell_posterior`.

Modelling conventions.

* Numpy arrays are modelled by `NDArray R`: a shape (list of dimension
  sizes) together with row-major flat data `ℕ → R`.  Elementwise binary
  operations follow numpy's broadcasting rule; an incompatible broadcast is
  an error (numpy raises `ValueError`), modelled by `Option`.
* Scalars live in an arbitrary `LinearOrderedField R`.  The transcendental
  floating-point functions used by the source (`np.exp`, `np.log`,
  `np.cos`, `np.sin`, `np.sqrt`, `np.pi`) are taken as parameters
  `rexp rlog rcos rsin rsqrt : R → R`, `rpi : R`: no claim below depends on
  an analytic identity of these functions beyond explicitly stated
  hypotheses (such as positivity of `rexp`), which hold for the real
  functions.  `np.real` is the identity on the real arrays manipulated here.
* The external collaborators of the sampling module — `GWP_construct`
  (module `regain.bayesian.wishart_process_`), `log_lik_frob`,
  `log_likelihood_normal`, `lognormal_pdf`, `lognormal_logpdf`, `lognstat`
  (module `regain.bayesian.stats`), the user kernel `kern`,
  `scipy.linalg.pinvh` and `sklearn`'s `fast_logdet` — are abstract
  function parameters, as in the specification's external-interface list.
* Randomness: each numpy global-stream draw is modelled by reading an
  explicit input stream (`un : ℕ → R` for uniform draws, `zn : ℕ → R` for
  standard-normal draws), consumed in source order.
* The state bundle passed to `elliptical_slice` (a `Bunch` with fields
  `xx`, `S`, `L`, `uut`, `V`, mutated in place) is modelled by `GWPState`;
  every exit of the function — normal return or raised exception — is a
  `EssResult` carrying the state as the caller observes it afterwards.
-/

section Arrays

variable {R : Type} [LinearOrderedField R]

/-- A numpy `ndarray`: a shape and row-major flat data. -/
structure NDArray (R : Type) where
  shape : List ℕ
  data : ℕ → R

/-- Total number of elements (`ndarray.size`). -/
def NDArray.size (x : NDArray R) : ℕ := x.shape.prod

/-- Numpy broadcast of two shapes given reversed (trailing-axis-first):
two dimensions are compatible when equal or when either is `1`; the
broadcast dimension is the non-`1` one. -/
def bshape2 : List ℕ → List ℕ → Option (List ℕ)
  | [], ys => some ys
  | xs, [] => some xs
  | x :: xs, y :: ys =>
      if x = y ∨ x = 1 ∨ y = 1 then
        (bshape2 xs ys).map (fun r => (if x = 1 then y else x) :: r)
      else none

/-- Numpy broadcast of two shapes (trailing axes aligned). -/
def broadcastShape (s t : List ℕ) : Option (List ℕ) :=
  (bshape2 s.reverse t.reverse).map List.reverse

/-- Row-major flattening of a multi-index against a shape. -/
def flattenIdx : List ℕ → List ℕ → ℕ
  | _, [] => 0
  | [], _ => 0
  | d :: ds, i :: is =>
      have := d
      i * ds.prod + flattenIdx ds is

/-- Row-major decomposition of a flat index into a multi-index. -/
def unflattenIdx : List ℕ → ℕ → List ℕ
  | [], _ => []
  | d :: ds, i => (i / ds.prod) % d :: unflattenIdx ds (i % ds.prod)

/-- Fetch an element of `x` at a (possibly longer, broadcast) multi-index:
leading axes are dropped and axes of extent `1` are pinned at `0`. -/
def bfetch (x : NDArray R) (idx : List ℕ) : R :=
  let idx' := idx.drop (idx.length - x.shape.length)
  x.data (flattenIdx x.shape (List.zipWith (fun d i => if d = 1 then 0 else i) x.shape idx'))

/-- Elementwise sum with numpy broadcasting; `none` when the shapes do not
broadcast (numpy raises `ValueError`). -/
def ewAdd (x y : NDArray R) : Option (NDArray R) :=
  (broadcastShape x.shape y.shape).map fun sh =>
    ⟨sh, fun i => bfetch x (unflattenIdx sh i) + bfetch y (unflattenIdx sh i)⟩

/-- Multiplication of an array by a scalar (numpy scalar broadcasting). -/
def scale (c : R) (x : NDArray R) : NDArray R := ⟨x.shape, fun i => c * x.data i⟩

/-- Sum of the elementwise product `np.sum(a * b)`; the non-broadcastable
case (in which numpy raises) returns `0` and is reached by no claim. -/
def ewMulSum (x y : NDArray R) : R :=
  match broadcastShape x.shape y.shape with
  | some sh =>
      ∑ i ∈ Finset.range sh.prod,
        bfetch x (unflattenIdx sh i) * bfetch y (unflattenIdx sh i)
  | none => 0

/-- The cross-product tensor of line 95 of `sampling.py`:
`np.array([u.dot(u.T) for u in xx_proposal.T])` for a rank-3 array of
shape `[a, b, c]`, i.e. the array of shape `[c, b, b]` with entry
`(t, j, k) ↦ ∑ m, x[m, j, t] * x[m, k, t]`.  (Only rank-3 arrays reach
this operation in the source.) -/
def uutOf (x : NDArray R) : NDArray R :=
  match x.shape with
  | [a, b, c] =>
      ⟨[c, b, b], fun i =>
        ∑ m ∈ Finset.range a,
          x.data (m * (b * c) + ((i % (b * b)) / b) * c + i / (b * b)) *
            x.data (m * (b * c) + (i % b) * c + i / (b * b))⟩
  | _ => ⟨[], fun _ => 0⟩

end Arrays

section EllipticalSlice

variable {R : Type} [LinearOrderedField R]

/-- The state bundle threaded through `elliptical_slice` (the Python
`Bunch` read via `xx.xx`, `xx.S`, `xx.L`, `xx.V` and written via
`xx['xx']`, `xx['uut']`, `xx['V']`). -/
structure GWPState (R : Type) where
  xx : NDArray R
  S : NDArray R
  L : NDArray R
  uut : NDArray R
  V : NDArray R

/-- The exceptions `elliptical_slice` can raise. -/
inductive SamplingError where
  /-- `ValueError` at line 71: the prior is neither a `D`-element sample
  nor a `D`-by-`D` Cholesky factor. -/
  | valueErrorPriorShape
  /-- `ValueError` raised by numpy at line 94 when the latent tensor and
  the prior sample do not broadcast. -/
  | valueErrorBroadcast
  /-- `ValueError` raised at line 54 when `initial_theta.shape` does not
  unpack into three dimensions. -/
  | valueErrorUnpack
  /-- `RuntimeError` at line 111: bracket shrunk to the current position
  and still not acceptable. -/
  | runtimeErrorShrunk
  deriving DecidableEq

/-- Outcome of one call of `elliptical_slice`: a normal return carrying the
state and the returned log-likelihood (`None` modelled as `none`), or a
raised exception carrying the state as the caller observes it after the
exception propagates. -/
inductive EssResult (R : Type) where
  | ok (st : GWPState R) (cll : Option R)
  | err (e : SamplingError) (st : GWPState R)

/-- The state as observed by the caller after the call. -/
def EssResult.stateOf : EssResult R → GWPState R
  | .ok st _ => st
  | .err _ st => st

/-- The exception raised by the call, when one is raised. -/
def EssResult.errOf : EssResult R → Option SamplingError
  | .ok _ _ => none
  | .err e _ => some e

/-- Lines 60–62: the working log-likelihood, recomputed from the state if
the caller passed `None`. -/
def curLL0 (loglik : NDArray R → NDArray R → R → R)
    (xx : GWPState R) (cur_log_like : Option R) (variance : R) : R :=
  match cur_log_like with
  | some c => c
  | none => loglik xx.S xx.V variance

/-- Lines 65–73: the ellipse direction `nu`.  A prior of size `D` is used
directly; a `D`-by-`D` prior is treated as a Cholesky factor and
transformed against `D` standard-normal draws then reshaped to the latent
tensor's shape (`np.reshape(prior.T.dot(np.random.normal(size=D)), ...)`);
any other prior is `None` (the `ValueError` of line 71). -/
def nuOf (prior : NDArray R) (v p N : ℕ) (zn : ℕ → R) : Option (NDArray R) :=
  if prior.size = v * p * N then some prior
  else if prior.shape = [v * p * N, v * p * N] then
    some ⟨[v, p, N], fun i =>
      ∑ j ∈ Finset.range (v * p * N), prior.data (j * (v * p * N) + i) * zn j⟩
  else none

/-- Lines 79–88: the initial angle bracket.  Returns
`(phi, phi_min, phi_max, next uniform-stream index)`; the uniform draw for
the slice threshold `hh` has index `0`. -/
def bracketInit (rpi angle_range : R) (un : ℕ → R) : R × R × R × ℕ :=
  if angle_range ≤ 0 then
    (un 1 * (2 * rpi), un 1 * (2 * rpi) - 2 * rpi, un 1 * (2 * rpi), 2)
  else
    (un 2 * ((-angle_range * un 1 + angle_range) - -angle_range * un 1) + -angle_range * un 1,
      -angle_range * un 1, -angle_range * un 1 + angle_range, 3)

/-- Line 94: the proposal `np.real(initial_theta * np.cos(phi) + nu * np.sin(phi))`
(`np.real` is the identity on these real arrays); `none` when the operands
do not broadcast. -/
def proposalAt (rcos rsin : R → R) (theta nu : NDArray R) (phi : R) : Option (NDArray R) :=
  ewAdd (scale (rcos phi) theta) (scale (rsin phi) nu)

/-- Outcome of the slice-sampling loop of lines 90–117. -/
inductive LoopOut (R : Type) where
  | accepted (prop uut V : NDArray R) (cll : R)
  | exhausted
  | bcastFail
  | shrunk

/-- Lines 90–117: the slice-sampling loop.  Arguments after the streams:
remaining iterations, `phi`, `phi_min`, `phi_max`, next uniform index. -/
def essLoop (gwp : NDArray R → NDArray R → Option (NDArray R) → NDArray R)
    (loglik : NDArray R → NDArray R → R → R) (rcos rsin : R → R)
    (theta nu S L : NDArray R) (variance hh : R) (un : ℕ → R) :
    ℕ → R → R → R → ℕ → LoopOut R
  | 0, _, _, _, _ => .exhausted
  | fuel + 1, phi, phi_min, phi_max, k =>
      match proposalAt rcos rsin theta nu phi with
      | none => .bcastFail
      | some prop =>
          let uut := uutOf prop
          let V := gwp prop L (some uut)
          let cll := loglik S V variance
          if hh < cll then .accepted prop uut V cll
          else if 0 < phi then
            essLoop gwp loglik rcos rsin theta nu S L variance hh un fuel
              (un k * (phi - phi_min) + phi_min) phi_min phi (k + 1)
          else if phi < 0 then
            essLoop gwp loglik rcos rsin theta nu S L variance hh un fuel
              (un k * (phi_max - phi) + phi) phi phi_max (k + 1)
          else .shrunk

/-- The function `elliptical_slice` of `sampling.py` (lines 11–129),
parametrized by the external collaborators `GWP_construct` (`gwp`) and
`log_lik_frob` (`loglik`), the float functions `rcos rsin rlog` and the
constant `rpi`, and the uniform/normal draw streams `un`/`zn`. -/
def elliptical_slice (gwp : NDArray R → NDArray R → Option (NDArray R) → NDArray R)
    (loglik : NDArray R → NDArray R → R → R) (rcos rsin rlog : R → R) (rpi : R)
    (xx : GWPState R) (prior : NDArray R) (cur_log_like : Option R)
    (variance angle_range : R) (max_iter : ℕ) (un zn : ℕ → R) : EssResult R :=
  match xx.xx.shape with
  | [v, p, N] =>
      let initial_theta := xx.xx
      let cll0 := curLL0 loglik xx cur_log_like variance
      match nuOf prior v p N zn with
      | none => .err .valueErrorPriorShape xx
      | some nu =>
          let hh := (1 / 1000 : R) * rlog (un 0) + cll0
          let bp := bracketInit rpi angle_range un
          match essLoop gwp loglik rcos rsin initial_theta nu xx.S xx.L variance hh un
              max_iter bp.1 bp.2.1 bp.2.2.1 bp.2.2.2 with
          | .accepted prop uut V cll => .ok { xx with uut := uut, xx := prop, V := V } (some cll)
          | .exhausted => .ok { xx with xx := initial_theta } cur_log_like
          | .bcastFail => .err .valueErrorBroadcast xx
          | .shrunk => .err .runtimeErrorShrunk xx
  | _ => .err .valueErrorUnpack xx

end EllipticalSlice

section HyperKernel

variable {R : Type} [LinearOrderedField R]

/-- The function `logpunorm` of `sampling.py` (lines 183–220): unnormalized
log-posterior of the kernel inverse width.  External collaborators: the
user kernel `kern` (applied to the column vector `t[:, None]`),
`scipy.linalg.pinvh` (`pinvh`), `sklearn`'s `fast_logdet`, and `lognstat`
and `lognormal_logpdf` from `regain.bayesian.stats`.  `F` is
`np.tensordot(umat, umat, axes=([1, 0], [1, 0]))`: for `umat` of shape
`[v, p, n]`, the `[n, n]` array with entry
`(a, b) ↦ ∑ i < v, ∑ j < p, umat[i, j, a] * umat[i, j, b]`.  (A `umat`
that is not rank 3 fails to unpack in the source; the claims never reach
that case, modelled as `0`.) -/
def logpunorm (kern : NDArray R → R → NDArray R) (pinvh : NDArray R → NDArray R)
    (fast_logdet : NDArray R → R) (lognstat : R → R → R × R)
    (lognormal_logpdf : R → R → R → R) (rlog : R → R) (rpi : R)
    (inverse_width : R) (t : NDArray R) (umat : NDArray R)
    (mean_prior var_prior : R) : R :=
  let K := kern ⟨t.shape ++ [1], t.data⟩ inverse_width
  let k_inverse := pinvh K
  match umat.shape with
  | [v, p, n] =>
      let F : NDArray R :=
        ⟨[n, n], fun i =>
          ∑ m ∈ Finset.range (v * p),
            umat.data ((m / p) * (p * n) + (m % p) * n + i / n) *
              umat.data ((m / p) * (p * n) + (m % p) * n + i % n)⟩
      let logpugl := (v : R) * (p : R) * fast_logdet K + ewMulSum F k_inverse
      let logpugl := logpugl + (umat.size : R) * rlog (2 * rpi)
      let logpugl := -(1 / 2 : R) * logpugl
      let ms := lognstat mean_prior var_prior
      logpugl + lognormal_logpdf inverse_width ms.1 ms.2
  | _ => 0

/-- The function `sample_hyper_kernel` of `sampling.py` (lines 132–180):
one Metropolis-Hastings step for the kernel hyperparameter with a
log-normal proposal.  `lognstat` and `lognormal_pdf` come from
`regain.bayesian.stats`; `np.random.lognormal(mu, sigma)` is
`exp(mu + sigma * z)` for a standard-normal draw `z`; `u` is the fresh
uniform draw of the acceptance test. -/
def sample_hyper_kernel (rexp : R → R) (kern : NDArray R → R → NDArray R)
    (pinvh : NDArray R → NDArray R) (fast_logdet : NDArray R → R)
    (lognstat : R → R → R × R) (lognormal_pdf : R → R → R → R)
    (lognormal_logpdf : R → R → R → R) (rlog : R → R) (rpi : R)
    (initial_theta var_proposal : R) (t u_mat : NDArray R)
    (mean_prior var_prior : R) (z u : R) : R × Bool :=
  let ms := lognstat initial_theta var_proposal
  let proposal := rexp (ms.1 + ms.2 * z)
  let logpzast := logpunorm kern pinvh fast_logdet lognstat lognormal_logpdf rlog rpi
    proposal t u_mat mean_prior var_prior
  let qzastztau := lognormal_pdf proposal ms.1 ms.2
  let ms2 := lognstat proposal var_proposal
  let logpztau := logpunorm kern pinvh fast_logdet lognstat lognormal_logpdf rlog rpi
    initial_theta t u_mat mean_prior var_prior
  let qztauzast := lognormal_pdf initial_theta ms2.1 ms2.2
  let acceptance_proba := min 1 (rexp (logpzast - logpztau) * (qztauzast / qzastztau))
  let accept : Bool := decide (u < acceptance_proba)
  (if accept then proposal else initial_theta, accept)

end HyperKernel

section CholeskyFactor

variable {R : Type} [LinearOrderedField R]

/-- The density `scipy.stats.norm.pdf(x, loc, scale)`:
`exp(-((x - loc) / scale)^2 / 2) / (scale * sqrt(2 * pi))`. -/
def norm_pdf (rexp rsqrt : R → R) (rpi : R) (x loc s : R) : R :=
  rexp (-(((x - loc) / s) ^ 2) / 2) / (s * rsqrt (2 * rpi))

/-- The function `logp_ell_posterior` of `sampling.py` (lines 266–272):
rebuild the `p`-by-`p` lower-triangular matrix `L` from the flat vector of
free elements (`np.tril_indices_from` enumerates the lower triangle in
row-major order, so `(r, c)` with `c ≤ r` holds element `r (r + 1) / 2 + c`),
reconstruct the field with `GWP_construct` and score it.  `p` is the
leading dimension of `S` (the shape of `S[..., 0]`, `p` times `p` per the
source comment); `gwp` is `GWP_construct`, `loglikF` is `log_lik_frob` and
`llnormal` is `log_likelihood_normal` from `regain.bayesian.stats`. -/
def logp_ell_posterior (gwp : NDArray R → NDArray R → Option (NDArray R) → NDArray R)
    (loglikF : NDArray R → NDArray R → R → R) (llnormal : R → R → R → R)
    (Lv : List R) (i : ℕ) (S umat : NDArray R) (var_err mu_prior var_prior : R)
    (uut : Option (NDArray R)) : R :=
  let p := S.shape.headD 0
  let L : NDArray R :=
    ⟨[p, p], fun idx =>
      if idx % p ≤ idx / p then Lv.getD ((idx / p) * (idx / p + 1) / 2 + idx % p) 0 else 0⟩
  let Dfield := gwp umat L uut
  let logpS := loglikF S Dfield var_err
  let logpL := llnormal (Lv.getD i 0) mu_prior var_prior
  logpS + logpL

/-- The function `_sample_ell_comp` of `sampling.py` (lines 241–263): one
scalar Metropolis-Hastings step for element `i` of the free-element vector.
`np.random.normal(Ltau, np.sqrt(sigma2Lprop))` is
`Ltau + sqrt(sigma2Lprop) * z` for a standard-normal draw `z`; `u` is the
fresh uniform draw of the acceptance test.  (Lean does not accept the
source's leading underscore in a declaration name.) -/
def sample_ell_comp (gwp : NDArray R → NDArray R → Option (NDArray R) → NDArray R)
    (loglikF : NDArray R → NDArray R → R → R) (llnormal : R → R → R → R)
    (rexp rsqrt : R → R) (rpi : R)
    (Ltaug : List R) (i : ℕ) (sigma2Lprop : R) (S umat : NDArray R)
    (var_err mu_prior var_prior : R) (uut : Option (NDArray R)) (z u : R) : R :=
  let Ltau := Ltaug.getD i 0
  let Last := Ltau + rsqrt sigma2Lprop * z
  let Lastg := Ltaug.set i Last
  let logpLast := logp_ell_posterior gwp loglikF llnormal Lastg i S umat var_err
    mu_prior var_prior uut
  let q_ast_tau := norm_pdf rexp rsqrt rpi Last Ltau (rsqrt sigma2Lprop)
  let logpLtau := logp_ell_posterior gwp loglikF llnormal Ltaug i S umat var_err
    mu_prior var_prior uut
  let q_tau_ast := norm_pdf rexp rsqrt rpi Ltau Last (rsqrt sigma2Lprop)
  let A := min 1 (rexp (logpLast - logpLtau) * (q_tau_ast / q_ast_tau))
  if u < A then Last else Ltau

/-- The per-index step of the `sample_L2` sweep: the call of
`_sample_ell_comp(Ltau, i, var_proposal[i], S, umat, var_err,
mu_prior=mu_prior[i], var_prior=var_prior[i], uut=uut)` at line 233, with
`zs i`/`us i` the normal and uniform draws consumed in iteration `i`. -/
def sampleL2step (gwp : NDArray R → NDArray R → Option (NDArray R) → NDArray R)
    (loglikF : NDArray R → NDArray R → R → R) (llnormal : R → R → R → R)
    (rexp rsqrt : R → R) (rpi : R)
    (var_proposal : List R) (S umat : NDArray R) (var_err : R)
    (mu_prior var_prior : List R) (uut : Option (NDArray R)) (zs us : ℕ → R)
    (i : ℕ) (Ltau : List R) : R :=
  sample_ell_comp gwp loglikF llnormal rexp rsqrt rpi Ltau i (var_proposal.getD i 0)
    S umat var_err (mu_prior.getD i 0) (var_prior.getD i 0) uut (zs i) (us i)

/-- Lines 232–236 of `sampling.py`: the loop body of `sample_L2`, threading
the in-place-updated `Ltau` (`v`) and the result accumulator `L_proposal`
(`w`) over the remaining indices. -/
def sampleL2Go (step : ℕ → List R → R) : List ℕ → List R → List R → List R × List R
  | [], v, w => (v, w)
  | i :: rest, v, w => sampleL2Go step rest (v.set i (step i v)) (w.set i (step i v))

/-- The function `sample_L2` of `sampling.py` (lines 223–238): per-element
Metropolis-Hastings sweep over the free elements of `Ltau`, writing each
accepted value back into `Ltau` before the next element's step, and
returning the accumulated `L_proposal` (initialized as
`np.zeros(free_elements)`). -/
def sample_L2 (gwp : NDArray R → NDArray R → Option (NDArray R) → NDArray R)
    (loglikF : NDArray R → NDArray R → R → R) (llnormal : R → R → R → R)
    (rexp rsqrt : R → R) (rpi : R)
    (Ltau var_proposal : List R) (S umat : NDArray R) (var_err : R)
    (mu_prior var_prior : List R) (uut : Option (NDArray R)) (zs us : ℕ → R) : List R :=
  (sampleL2Go
    (sampleL2step gwp loglikF llnormal rexp rsqrt rpi var_proposal S umat var_err
      mu_prior var_prior uut zs us)
    (List.range Ltau.length) Ltau (List.replicate Ltau.length 0)).2

/-- Modelled from the spec: the sequential single-site sweep it requires of
`sample_L2` — "updates are strictly sequential and each subsequent
element's acceptance test sees the already-accepted value of earlier
elements in this sweep".  Starting from the input vector, element `i` is
replaced by the step evaluated at the vector already updated at elements
`0, …, i-1`. -/
def seqSweep (step : ℕ → List R → R) (n : ℕ) (init : List R) : List R :=
  (List.range n).foldl (fun acc i => acc.set i (step i acc)) init

end CholeskyFactor

section Lemmas

variable {R : Type} [LinearOrderedField R]

/-- Broadcasting a (reversed) shape against itself succeeds and is the
identity. -/
lemma bshape2_self (l : List ℕ) : bshape2 l l = some l := by
  induction l with
  | nil => rfl
  | cons x xs ih =>
      simp [bshape2, ih]

/-- Broadcasting a shape against itself succeeds and is the identity. -/
lemma broadcastShape_self (s : List ℕ) : broadcastShape s s = some s := by
  simp [broadcastShape, bshape2_self]

/-- Broadcasting against a shorter all-ones (reversed) shape succeeds and
returns the longer shape. -/
lemma bshape2_ones (m l : List ℕ) (h1 : ∀ d ∈ m, d = 1) (hlen : m.length ≤ l.length) :
    bshape2 l m = some l := by
  induction m generalizing l with
  | nil => cases l <;> rfl
  | cons y ys ih =>
      cases l with
      | nil => simp at hlen
      | cons x xs =>
          have hy : y = 1 := h1 y (by simp)
          have hxs : bshape2 xs ys = some xs :=
            ih xs (fun d hd => h1 d (by simp [hd])) (by simpa using hlen)
          subst hy
          simp [bshape2, hxs]
          rcases eq_or_ne x 1 with hx | hx <;> simp [hx]

/-- A successful elementwise sum has the broadcast shape. -/
lemma ewAdd_shape {x y z : NDArray R} (h : ewAdd x y = some z) :
    broadcastShape x.shape y.shape = some z.shape := by
  rcases hb : broadcastShape x.shape y.shape with _ | sh
  · rw [ewAdd, hb] at h; simp at h
  · rw [ewAdd, hb] at h
    simp only [Option.map_some'] at h
    obtain rfl := (Option.some.inj h).symm
    rfl

/-- Scalar multiplication preserves the shape. -/
lemma scale_shape (c : R) (x : NDArray R) : (scale c x).shape = x.shape := rfl

/-- When the latent tensor and direction shapes broadcast to the former,
every proposal of line 94 is defined. -/
lemma proposalAt_isSome {theta nu : NDArray R} (rcos rsin : R → R) (phi : R)
    (hb : broadcastShape theta.shape nu.shape = some theta.shape) :
    ∃ prop, proposalAt rcos rsin theta nu phi = some prop ∧ prop.shape = theta.shape := by
  rw [proposalAt, ewAdd]
  rw [scale_shape, scale_shape, hb]
  exact ⟨_, rfl, rfl⟩

/-- Inversion for an accepting run of the slice-sampling loop: the
accepted components are the proposal of some angle, its derived
cross-product tensor, the field reconstructed from it, and its
log-likelihood. -/
lemma essLoop_accepted_inv
    (gwp : NDArray R → NDArray R → Option (NDArray R) → NDArray R)
    (loglik : NDArray R → NDArray R → R → R) (rcos rsin : R → R)
    (theta nu S L : NDArray R) (variance hh : R) (un : ℕ → R) :
    ∀ fuel phi a b k prop uut V cll,
      essLoop gwp loglik rcos rsin theta nu S L variance hh un fuel phi a b k
        = .accepted prop uut V cll →
      ∃ phi0, proposalAt rcos rsin theta nu phi0 = some prop ∧ uut = uutOf prop
        ∧ V = gwp prop L (some (uutOf prop))
        ∧ cll = loglik S (gwp prop L (some (uutOf prop))) variance := by
  intro fuel
  induction fuel with
  | zero =>
      intro phi a b k prop uut V cll h
      rw [essLoop] at h
      exact LoopOut.noConfusion h
  | succ n ih =>
      intro phi a b k prop uut V cll h
      rw [essLoop] at h
      rcases hp : proposalAt rcos rsin theta nu phi with _ | prop0
      · rw [hp] at h; simp at h
      · rw [hp] at h
        simp only at h
        by_cases hacc : hh < loglik S (gwp prop0 L (some (uutOf prop0))) variance
        · rw [if_pos hacc] at h
          obtain ⟨h1, h2, h3, h4⟩ := LoopOut.accepted.inj h
          subst h1; subst h2; subst h3; subst h4
          exact ⟨phi, hp, rfl, rfl, rfl⟩
        · rw [if_neg hacc] at h
          by_cases hpos : 0 < phi
          · rw [if_pos hpos] at h
            exact ih _ _ _ _ _ _ _ _ h
          · rw [if_neg hpos] at h
            by_cases hneg : phi < 0
            · rw [if_pos hneg] at h
              exact ih _ _ _ _ _ _ _ _ h
            · rw [if_neg hneg] at h
              simp at h

end Lemmas

section Instances

/-- A concrete `1`-by-`1`-by-`1` zero tensor over `ℚ`. -/
def qArr111 : NDArray ℚ := ⟨[1, 1, 1], fun _ => 0⟩

/-- A concrete state over `ℚ` whose latent tensor has shape `[1, 1, 1]`. -/
def qSt111 : GWPState ℚ := ⟨qArr111, qArr111, qArr111, qArr111, qArr111⟩

/-- A concrete zero tensor of shape `[1, 2, 3]` over `ℚ` (size `D = 6`). -/
def qArr123 : NDArray ℚ := ⟨[1, 2, 3], fun _ => 0⟩

/-- A concrete state whose latent tensor has shape `[1, 2, 3]`. -/
def qSt123 : GWPState ℚ := ⟨qArr123, qArr111, qArr111, qArr111, qArr111⟩

/-- A concrete zero tensor of shape `[2, 2, 5]` over `ℚ` (size `D = 20`). -/
def qArr225 : NDArray ℚ := ⟨[2, 2, 5], fun _ => 0⟩

/-- A concrete state whose latent tensor has shape `[2, 2, 5]`. -/
def qSt225 : GWPState ℚ := ⟨qArr225, qArr111, qArr111, qArr111, qArr111⟩

/-- A `6`-element prior of shape `[2, 3]`: neither `(D,)` nor `(D, D)` for
`D = 6`, but of size `D`. -/
def qPrior23 : NDArray ℚ := ⟨[2, 3], fun _ => 0⟩

/-- A flat `5`-element prior: wrong size and wrong shape for `D = 6`. -/
def qPrior5 : NDArray ℚ := ⟨[5], fun _ => 0⟩

/-- A flat `20`-element prior sample, as the docstring of
`elliptical_slice` describes (`shape (D,)`), for `D = 20`. -/
def qPrior20 : NDArray ℚ := ⟨[20], fun _ => 0⟩

/-- A dummy concrete `GWP_construct` collaborator over `ℚ`. -/
def qGwp : NDArray ℚ → NDArray ℚ → Option (NDArray ℚ) → NDArray ℚ := fun _ _ _ => qArr111

/-- A dummy log-likelihood collaborator that always returns `0`. -/
def qLL0 : NDArray ℚ → NDArray ℚ → ℚ → ℚ := fun _ _ _ => 0

/-- A dummy log-likelihood collaborator that always returns `1`. -/
def qLL1 : NDArray ℚ → NDArray ℚ → ℚ → ℚ := fun _ _ _ => 1

/-- The constant-`0` scalar function over `ℚ`. -/
def qF0 : ℚ → ℚ := fun _ => 0

/-- The constant-`1` scalar function over `ℚ`. -/
def qF1 : ℚ → ℚ := fun _ => 1

/-- The constant-`0` draw stream over `ℚ`. -/
def qS0 : ℕ → ℚ := fun _ => 0

/-- The constant-`1` draw stream over `ℚ`. -/
def qS1 : ℕ → ℚ := fun _ => 1

end Instances

section ClaimC1

variable {R : Type} [LinearOrderedField R]

/-- Claim C1 (counterexample): the claim "for every prior whose shape is
neither `(D,)` nor `(D, D)`, `elliptical_slice` raises `ValueError`" is
false on the code.  With a latent tensor of shape `(1, 2, 3)` (so
`D = 6`) and a prior of shape `(2, 3)` — neither `(6,)` nor `(6, 6)` —
the size check `prior.size == D` of line 65 passes, the prior is used as
the ellipse direction, it broadcasts against the latent tensor, and the
call returns normally: no error of any kind is raised. -/
theorem claim_C1_counterexample :
    (elliptical_slice qGwp qLL1 qF0 qF0 qF0 0 qSt123 qPrior23 (some 0) 0 0 1
        qS0 qS0).errOf = none
      ∧ qPrior23.shape ≠ [6] ∧ qPrior23.shape ≠ [6, 6] ∧ qSt123.xx.shape = [1, 2, 3] := by
  refine ⟨?_, by decide, by decide, by decide⟩
  norm_num [elliptical_slice, curLL0, nuOf, bracketInit, essLoop, proposalAt, ewAdd,
    broadcastShape, bshape2, scale, NDArray.size, qSt123, qArr123, qPrior23, qGwp,
    qLL1, qF0, qS0, EssResult.errOf]

/-- Claim C1 (amended): for every prior whose size is not `D` and whose
shape is not `(D, D)` — where `D = v * p * N` is the total size of the
latent tensor `xx.xx` — `elliptical_slice` raises the input-validation
error (`ValueError`), with the state untouched, and the outcome is the
same for all random streams (the error precedes every random draw). -/
theorem claim_C1_amended (gwp : NDArray R → NDArray R → Option (NDArray R) → NDArray R)
    (loglik : NDArray R → NDArray R → R → R) (rcos rsin rlog : R → R) (rpi : R)
    (xx : GWPState R) (prior : NDArray R) (cur_log_like : Option R)
    (variance angle_range : R) (max_iter : ℕ) (v p N : ℕ)
    (hs : xx.xx.shape = [v, p, N]) (hsize : prior.size ≠ v * p * N)
    (hshape : prior.shape ≠ [v * p * N, v * p * N]) :
    ∀ un zn, elliptical_slice gwp loglik rcos rsin rlog rpi xx prior cur_log_like
      variance angle_range max_iter un zn = .err .valueErrorPriorShape xx := by
  intro un zn
  simp only [elliptical_slice, hs]
  simp only [nuOf, if_neg hsize, if_neg hshape]

/-- Claim C1 (witness): the amended claim at a concrete input — latent
tensor of shape `(1, 2, 3)`, prior of shape `(5,)` (size `5 ≠ 6`, shape
not `(6, 6)`). -/
theorem claim_C1_witness :
    elliptical_slice qGwp qLL1 qF0 qF0 qF0 0 qSt123 qPrior5 (some 0) 0 0 20 qS0 qS0
      = .err .valueErrorPriorShape qSt123 :=
  claim_C1_amended qGwp qLL1 qF0 qF0 qF0 0 qSt123 qPrior5 (some 0) 0 0 20 1 2 3
    rfl (by decide) (by decide) qS0 qS0

end ClaimC1

section ClaimC2

variable {R : Type} [LinearOrderedField R]

/-- Claim C2 (counterexample): the claim "for every valid prior
specification (a `D`-element prior sample, or a `D`-by-`D` Cholesky
factor), `elliptical_slice` returns a state whose latent tensor has the
same shape as the input latent tensor" is false on the code.  With a
latent tensor of shape `(2, 2, 5)` (`D = 20`) and a `D`-element prior
sample of shape `(20,)` — the shape the function's docstring itself
prescribes — the proposal `initial_theta * cos(phi) + nu * sin(phi)` of
line 94 does not broadcast (trailing dimensions `5` and `20`), numpy
raises `ValueError`, and no state is returned at all. -/
theorem claim_C2_counterexample :
    (elliptical_slice qGwp qLL1 qF0 qF0 qF0 0 qSt225 qPrior20 (some 0) 0 0 1
        qS0 qS0).errOf = some .valueErrorBroadcast
      ∧ qPrior20.size = 2 * 2 * 5 ∧ qSt225.xx.shape = [2, 2, 5] := by
  refine ⟨?_, by decide, by decide⟩
  norm_num [elliptical_slice, curLL0, nuOf, bracketInit, essLoop, proposalAt, ewAdd,
    broadcastShape, bshape2, scale, NDArray.size, qSt225, qArr225, qPrior20, qGwp,
    qLL1, qF0, qS0, EssResult.errOf]

/-- Whenever the ellipse direction's shape broadcasts against the latent
tensor's shape to the latter, the state observed after `elliptical_slice`
(on every path, normal or raising) keeps the latent tensor's shape. -/
lemma ess_stateOf_shape (gwp : NDArray R → NDArray R → Option (NDArray R) → NDArray R)
    (loglik : NDArray R → NDArray R → R → R) (rcos rsin rlog : R → R) (rpi : R)
    (xx : GWPState R) (prior : NDArray R) (cur_log_like : Option R)
    (variance angle_range : R) (max_iter : ℕ) (un zn : ℕ → R) (v p N : ℕ)
    (nu : NDArray R) (hs : xx.xx.shape = [v, p, N])
    (hnu : nuOf prior v p N zn = some nu)
    (hb : broadcastShape xx.xx.shape nu.shape = some xx.xx.shape) :
    ((elliptical_slice gwp loglik rcos rsin rlog rpi xx prior cur_log_like
        variance angle_range max_iter un zn).stateOf).xx.shape = xx.xx.shape := by
  simp only [elliptical_slice, hs, hnu]
  split
  · next prop uut V cll heq =>
      obtain ⟨phi0, hp, _, _, _⟩ :=
        essLoop_accepted_inv gwp loglik rcos rsin xx.xx nu xx.S xx.L variance _ un
          _ _ _ _ _ _ _ _ _ heq
      have := ewAdd_shape hp
      rw [scale_shape, scale_shape, hs] at this
      rw [hs] at hb
      simp only [EssResult.stateOf]
      exact (Option.some.inj (hb.symm.trans this)).symm
  · simp only [EssResult.stateOf]
    exact hs
  · simp only [EssResult.stateOf]
    exact hs
  · simp only [EssResult.stateOf]
    exact hs

/-- Claim C2 (amended): for every prior sample whose shape equals the
latent tensor's shape, and for every `D`-by-`D` Cholesky-factor prior
(`D = v * p * N > 0` the total size of the latent tensor), the state
observed after `elliptical_slice` — it is returned on the normal paths,
and left in place when the call raises — has a latent tensor of the same
shape as the input latent tensor. -/
theorem claim_C2_amended (gwp : NDArray R → NDArray R → Option (NDArray R) → NDArray R)
    (loglik : NDArray R → NDArray R → R → R) (rcos rsin rlog : R → R) (rpi : R)
    (xx : GWPState R) (prior : NDArray R) (cur_log_like : Option R)
    (variance angle_range : R) (max_iter : ℕ) (un zn : ℕ → R) (v p N : ℕ)
    (hs : xx.xx.shape = [v, p, N]) (hD : 0 < v * p * N)
    (hp : prior.shape = xx.xx.shape ∨ prior.shape = [v * p * N, v * p * N]) :
    ((elliptical_slice gwp loglik rcos rsin rlog rpi xx prior cur_log_like
        variance angle_range max_iter un zn).stateOf).xx.shape = xx.xx.shape := by
  rcases hp with hps | hps
  · have hsize : prior.size = v * p * N := by
      rw [NDArray.size, hps, hs]; simp; ring
    have hnu : nuOf prior v p N zn = some prior := by
      rw [nuOf, if_pos hsize]
    have hb : broadcastShape xx.xx.shape prior.shape = some xx.xx.shape := by
      rw [hps]; exact broadcastShape_self _
    exact ess_stateOf_shape gwp loglik rcos rsin rlog rpi xx prior cur_log_like
      variance angle_range max_iter un zn v p N prior hs hnu hb
  · by_cases hsz : prior.size = v * p * N
    · have hDD : v * p * N * (v * p * N) = v * p * N * 1 := by
        have h0 := hsz
        rw [NDArray.size, hps] at h0
        simpa [mul_one] using h0
      have hD1 : v * p * N = 1 := Nat.eq_of_mul_eq_mul_left hD hDD
      have hnu : nuOf prior v p N zn = some prior := by
        rw [nuOf, if_pos hsz]
      have hrevones : ∀ d ∈ prior.shape.reverse, d = 1 := by
        rw [hps, hD1]; intro d hd; simpa using hd
      have hrevlen : prior.shape.reverse.length ≤ xx.xx.shape.reverse.length := by
        rw [hps, hs]; simp
      have hb : broadcastShape xx.xx.shape prior.shape = some xx.xx.shape := by
        rw [broadcastShape, bshape2_ones _ _ hrevones hrevlen]
        simp
      exact ess_stateOf_shape gwp loglik rcos rsin rlog rpi xx prior cur_log_like
        variance angle_range max_iter un zn v p N prior hs hnu hb
    · obtain ⟨nu, hnu, hnus⟩ :
          ∃ nu, nuOf prior v p N zn = some nu ∧ nu.shape = [v, p, N] := by
        rw [nuOf, if_neg hsz, if_pos hps]
        exact ⟨_, rfl, rfl⟩
      have hb : broadcastShape xx.xx.shape nu.shape = some xx.xx.shape := by
        rw [hnus, ← hs]; exact broadcastShape_self _
      exact ess_stateOf_shape gwp loglik rcos rsin rlog rpi xx prior cur_log_like
        variance angle_range max_iter un zn v p N nu hs hnu hb

/-- Claim C2 (witness): the amended claim at a concrete input — a latent
tensor of shape `(1, 2, 3)` and a prior sample of that same shape. -/
theorem claim_C2_witness :
    ((elliptical_slice qGwp qLL1 qF0 qF0 qF0 0 qSt123 qArr123 (some 0) 0 0 20
        qS0 qS0).stateOf).xx.shape = qSt123.xx.shape :=
  claim_C2_amended qGwp qLL1 qF0 qF0 qF0 0 qSt123 qArr123 (some 0) 0 0 20 qS0 qS0
    1 2 3 rfl (by decide) (Or.inl rfl)

end ClaimC2

section ClaimC3C10

variable {R : Type} [LinearOrderedField R]

/-- When the slice-sampling loop exhausts its iterations without
accepting, `elliptical_slice` returns the state unchanged together with
the caller's original log-likelihood argument. -/
lemma ess_exhausted_eq (gwp : NDArray R → NDArray R → Option (NDArray R) → NDArray R)
    (loglik : NDArray R → NDArray R → R → R) (rcos rsin rlog : R → R) (rpi : R)
    (xx : GWPState R) (prior : NDArray R) (cur_log_like : Option R)
    (variance angle_range : R) (max_iter : ℕ) (un zn : ℕ → R) (v p N : ℕ)
    (nu : NDArray R) (hs : xx.xx.shape = [v, p, N])
    (hnu : nuOf prior v p N zn = some nu)
    (hex : essLoop gwp loglik rcos rsin xx.xx nu xx.S xx.L variance
        ((1 / 1000 : R) * rlog (un 0) + curLL0 loglik xx cur_log_like variance) un
        max_iter (bracketInit rpi angle_range un).1 (bracketInit rpi angle_range un).2.1
        (bracketInit rpi angle_range un).2.2.1 (bracketInit rpi angle_range un).2.2.2
      = LoopOut.exhausted) :
    elliptical_slice gwp loglik rcos rsin rlog rpi xx prior cur_log_like
      variance angle_range max_iter un zn = .ok xx cur_log_like := by
  simp only [elliptical_slice, hs, hnu, hex]

/-- Claim C3: if `elliptical_slice` runs its `max_iter` loop iterations
with no proposal's log-likelihood exceeding the slice threshold, it
returns the state exactly as it was before the call (the latent tensor is
reverted to its pre-update value, every other field untouched) and the
original log-likelihood unchanged, raising no error. -/
theorem claim_C3_soft_failure (gwp : NDArray R → NDArray R → Option (NDArray R) → NDArray R)
    (loglik : NDArray R → NDArray R → R → R) (rcos rsin rlog : R → R) (rpi : R)
    (xx : GWPState R) (prior : NDArray R) (c : R)
    (variance angle_range : R) (max_iter : ℕ) (un zn : ℕ → R) (v p N : ℕ)
    (nu : NDArray R) (hs : xx.xx.shape = [v, p, N])
    (hnu : nuOf prior v p N zn = some nu)
    (hex : essLoop gwp loglik rcos rsin xx.xx nu xx.S xx.L variance
        ((1 / 1000 : R) * rlog (un 0) + c) un
        max_iter (bracketInit rpi angle_range un).1 (bracketInit rpi angle_range un).2.1
        (bracketInit rpi angle_range un).2.2.1 (bracketInit rpi angle_range un).2.2.2
      = LoopOut.exhausted) :
    elliptical_slice gwp loglik rcos rsin rlog rpi xx prior (some c)
      variance angle_range max_iter un zn = .ok xx (some c) :=
  ess_exhausted_eq gwp loglik rcos rsin rlog rpi xx prior (some c) variance
    angle_range max_iter un zn v p N nu hs hnu (by simpa only [curLL0] using hex)

/-- Claim C3 (witness): a concrete run over `ℚ` with `max_iter = 1` whose
single proposal is rejected (`loglik` constantly `0`, threshold `0`,
first angle `6 > 0`): the call returns the untouched state and the
original log-likelihood `0`. -/
theorem claim_C3_witness :
    elliptical_slice qGwp qLL0 qF0 qF0 qF0 3 qSt111 qArr111 (some 0) 0 0 1 qS1 qS0
      = .ok qSt111 (some 0) :=
  claim_C3_soft_failure qGwp qLL0 qF0 qF0 qF0 3 qSt111 qArr111 0 0 0 1 qS1 qS0
    1 1 1 qArr111 rfl
    (by simp [nuOf, NDArray.size, qArr111])
    (by norm_num [essLoop, bracketInit, proposalAt, ewAdd, broadcastShape, bshape2,
      scale, qS1, qF0, qLL0, qSt111, qArr111])

/-- Claim C10: when `elliptical_slice` is called with
`cur_log_like = None` and no proposal is accepted within `max_iter`
iterations, the returned log-likelihood is `None`: the log-likelihood
recomputed internally at line 62 is discarded on the soft-failure path,
which returns the original argument `cur_log_like_start`. -/
theorem claim_C10_none_soft_failure
    (gwp : NDArray R → NDArray R → Option (NDArray R) → NDArray R)
    (loglik : NDArray R → NDArray R → R → R) (rcos rsin rlog : R → R) (rpi : R)
    (xx : GWPState R) (prior : NDArray R)
    (variance angle_range : R) (max_iter : ℕ) (un zn : ℕ → R) (v p N : ℕ)
    (nu : NDArray R) (hs : xx.xx.shape = [v, p, N])
    (hnu : nuOf prior v p N zn = some nu)
    (hex : essLoop gwp loglik rcos rsin xx.xx nu xx.S xx.L variance
        ((1 / 1000 : R) * rlog (un 0) + loglik xx.S xx.V variance) un
        max_iter (bracketInit rpi angle_range un).1 (bracketInit rpi angle_range un).2.1
        (bracketInit rpi angle_range un).2.2.1 (bracketInit rpi angle_range un).2.2.2
      = LoopOut.exhausted) :
    elliptical_slice gwp loglik rcos rsin rlog rpi xx prior none
      variance angle_range max_iter un zn = .ok xx none :=
  ess_exhausted_eq gwp loglik rcos rsin rlog rpi xx prior none variance
    angle_range max_iter un zn v p N nu hs hnu (by simpa only [curLL0] using hex)

/-- Claim C10 (witness): the concrete soft-failing run of the C3 witness,
called with `cur_log_like = None`: the returned log-likelihood is `None`
even though a log-likelihood was recomputed internally. -/
theorem claim_C10_witness :
    elliptical_slice qGwp qLL0 qF0 qF0 qF0 3 qSt111 qArr111 none 0 0 1 qS1 qS0
      = .ok qSt111 none :=
  claim_C10_none_soft_failure qGwp qLL0 qF0 qF0 qF0 3 qSt111 qArr111 0 0 1 qS1 qS0
    1 1 1 qArr111 rfl
    (by simp [nuOf, NDArray.size, qArr111])
    (by norm_num [essLoop, bracketInit, proposalAt, ewAdd, broadcastShape, bshape2,
      scale, qS1, qF0, qLL0, qSt111, qArr111])

end ClaimC3C10

section ClaimC4C8

variable {R : Type} [LinearOrderedField R]

/-- Claim C4: whenever the angle `phi` under test in the slice-sampling
loop is exactly `0` and the proposal there is rejected (its
log-likelihood does not exceed the slice threshold), the loop signals the
bracket-shrunk condition rather than shrinking or continuing — this holds
at any iteration, any bracket and any threshold; whenever the loop
signals that condition, `elliptical_slice` raises the unrecoverable
`RuntimeError` ("shrunk to current position and still not acceptable"),
aborting with the state — in particular the latent tensor — still
unmodified; and this error outcome is distinct from every normal return,
in particular from the soft `max_iter`-exhausted return path (which
yields an `ok` result). -/
theorem claim_C4_fatal_shrink (gwp : NDArray R → NDArray R → Option (NDArray R) → NDArray R)
    (loglik : NDArray R → NDArray R → R → R) (rcos rsin rlog : R → R) (rpi : R)
    (xx : GWPState R) (prior : NDArray R) (cur_log_like : Option R)
    (variance angle_range : R) (max_iter : ℕ) (un zn : ℕ → R) (v p N : ℕ)
    (nu : NDArray R) (hs : xx.xx.shape = [v, p, N])
    (hnu : nuOf prior v p N zn = some nu) :
    (∀ (hh : R) (fuel : ℕ) (phi_min phi_max : R) (k : ℕ) (prop : NDArray R),
        proposalAt rcos rsin xx.xx nu 0 = some prop →
        loglik xx.S (gwp prop xx.L (some (uutOf prop))) variance ≤ hh →
        essLoop gwp loglik rcos rsin xx.xx nu xx.S xx.L variance hh un (fuel + 1)
          0 phi_min phi_max k = LoopOut.shrunk)
    ∧ (essLoop gwp loglik rcos rsin xx.xx nu xx.S xx.L variance
          ((1 / 1000 : R) * rlog (un 0) + curLL0 loglik xx cur_log_like variance) un
          max_iter (bracketInit rpi angle_range un).1 (bracketInit rpi angle_range un).2.1
          (bracketInit rpi angle_range un).2.2.1 (bracketInit rpi angle_range un).2.2.2
        = LoopOut.shrunk →
        elliptical_slice gwp loglik rcos rsin rlog rpi xx prior cur_log_like
          variance angle_range max_iter un zn = .err .runtimeErrorShrunk xx)
    ∧ ∀ (st : GWPState R) (cll : Option R),
        (EssResult.err .runtimeErrorShrunk xx : EssResult R) ≠ .ok st cll := by
  refine ⟨?_, ?_, by intro st cll h; exact EssResult.noConfusion h⟩
  · intro hh fuel phi_min phi_max k prop hprop hrej
    rw [essLoop, hprop]
    simp only
    rw [if_neg (not_lt.mpr hrej), if_neg (lt_irrefl 0), if_neg (lt_irrefl 0)]
  · intro hloop
    simp only [elliptical_slice, hs, hnu, hloop]

/-- Claim C4 (witness): a concrete run over `ℚ` in which the first angle
is exactly `0` (`un 1 = 0`) and the proposal there is rejected: the call
raises the `RuntimeError` with the state untouched. -/
theorem claim_C4_witness :
    elliptical_slice qGwp qLL0 qF0 qF0 qF0 3 qSt111 qArr111 (some 0) 0 0 1 qS0 qS0
      = .err .runtimeErrorShrunk qSt111 :=
  (claim_C4_fatal_shrink qGwp qLL0 qF0 qF0 qF0 3 qSt111 qArr111 (some 0) 0 0 1
    qS0 qS0 1 1 1 qArr111 rfl
    (by simp [nuOf, NDArray.size, qArr111])).2.1
    (by norm_num [essLoop, bracketInit, proposalAt, ewAdd, broadcastShape, bshape2,
      scale, curLL0, qS0, qF0, qLL0, qSt111, qArr111])

/-- Claim C8: with `angle_range ≤ 0`, when the very first proposed point
`real(xx * cos(phi) + nu * sin(phi))` (at the initially drawn angle
`phi = uniform * 2 * pi`) has log-likelihood exceeding the slice
threshold, `elliptical_slice` exits the loop at its first iteration
without any bracket shrinkage — the result is the same as with
`max_iter = 1` — and commits into the state the proposal, its derived
cross-product tensor `uut`, and the covariance field reconstructed from
the factor and the proposal, returning the proposal's log-likelihood. -/
theorem claim_C8_first_accept (gwp : NDArray R → NDArray R → Option (NDArray R) → NDArray R)
    (loglik : NDArray R → NDArray R → R → R) (rcos rsin rlog : R → R) (rpi : R)
    (xx : GWPState R) (prior prop : NDArray R) (c : R)
    (variance angle_range : R) (max_iter : ℕ) (un zn : ℕ → R) (v p N : ℕ)
    (nu : NDArray R) (hs : xx.xx.shape = [v, p, N])
    (hnu : nuOf prior v p N zn = some nu) (hang : angle_range ≤ 0)
    (hprop : proposalAt rcos rsin xx.xx nu (un 1 * (2 * rpi)) = some prop)
    (hacc : (1 / 1000 : R) * rlog (un 0) + c
      < loglik xx.S (gwp prop xx.L (some (uutOf prop))) variance)
    (hmi : 1 ≤ max_iter) :
    elliptical_slice gwp loglik rcos rsin rlog rpi xx prior (some c)
        variance angle_range max_iter un zn
      = .ok { xx with
            xx := prop
            uut := uutOf prop
            V := gwp prop xx.L (some (uutOf prop)) }
          (some (loglik xx.S (gwp prop xx.L (some (uutOf prop))) variance))
    ∧ elliptical_slice gwp loglik rcos rsin rlog rpi xx prior (some c)
        variance angle_range max_iter un zn
      = elliptical_slice gwp loglik rcos rsin rlog rpi xx prior (some c)
          variance angle_range 1 un zn := by
  have key : ∀ m : ℕ,
      elliptical_slice gwp loglik rcos rsin rlog rpi xx prior (some c)
        variance angle_range (m + 1) un zn
      = .ok { xx with
            xx := prop
            uut := uutOf prop
            V := gwp prop xx.L (some (uutOf prop)) }
          (some (loglik xx.S (gwp prop xx.L (some (uutOf prop))) variance)) := by
    intro m
    simp only [elliptical_slice, hs, hnu]
    simp only [bracketInit, if_pos hang]
    rw [essLoop, hprop]
    simp only
    rw [if_pos (by simpa only [curLL0] using hacc)]
  obtain ⟨m, rfl⟩ : ∃ m, max_iter = m + 1 := ⟨max_iter - 1, by omega⟩
  exact ⟨key m, (key m).trans (key 0).symm⟩

/-- The first proposal of the concrete C8 witness run: angle
`1 * (2 * 3) = 6`, zero cosine/sine functions, latent tensor and
direction of shape `[1, 1, 1]`. -/
def qProp8 : NDArray ℚ :=
  (proposalAt qF0 qF0 qSt111.xx qArr111 (qS1 1 * (2 * 3))).getD ⟨[], fun _ => 0⟩

/-- Claim C8 (witness): a concrete run over `ℚ` with `angle_range = 0`,
`max_iter = 20`, threshold `0` and constant log-likelihood `1`: the first
proposal is accepted, the state is updated with the proposal and its
derived tensors, and the run equals the `max_iter = 1` run. -/
theorem claim_C8_witness :
    elliptical_slice qGwp qLL1 qF0 qF0 qF0 3 qSt111 qArr111 (some 0) 0 0 20 qS1 qS0
      = .ok { qSt111 with
            xx := qProp8
            uut := uutOf qProp8
            V := qGwp qProp8 qSt111.L (some (uutOf qProp8)) }
          (some (qLL1 qSt111.S (qGwp qProp8 qSt111.L (some (uutOf qProp8))) 0))
      ∧ elliptical_slice qGwp qLL1 qF0 qF0 qF0 3 qSt111 qArr111 (some 0) 0 0 20 qS1 qS0
        = elliptical_slice qGwp qLL1 qF0 qF0 qF0 3 qSt111 qArr111 (some 0) 0 0 1 qS1 qS0 :=
  claim_C8_first_accept qGwp qLL1 qF0 qF0 qF0 3 qSt111 qArr111 qProp8
    0 0 0 20 qS1 qS0 1 1 1 qArr111 rfl
    (by simp [nuOf, NDArray.size, qArr111])
    (by norm_num)
    rfl
    (by norm_num [qLL1, qF0, qS1])
    (by norm_num)

end ClaimC4C8

section ClaimC9

variable {R : Type} [LinearOrderedField R]

/-- Claim C9: `elliptical_slice` never modifies the state's observed
tensor `S` or triangular factor `L`.  Every call ends in one of exactly
three ways: an exception is raised and the state is bit-for-bit the input
state; the soft-failure return hands back the input state unchanged with
the caller's original log-likelihood; or a proposal is accepted and the
returned state differs from the input state only in the `xx`, `uut` and
`V` fields — `S` and `L` are carried over — with `uut` and `V` the values
derived from the accepted proposal.  In particular `uut` and `V` are
written only on acceptance. -/
theorem claim_C9_frame (gwp : NDArray R → NDArray R → Option (NDArray R) → NDArray R)
    (loglik : NDArray R → NDArray R → R → R) (rcos rsin rlog : R → R) (rpi : R)
    (xx : GWPState R) (prior : NDArray R) (cur_log_like : Option R)
    (variance angle_range : R) (max_iter : ℕ) (un zn : ℕ → R) :
    (∃ e, elliptical_slice gwp loglik rcos rsin rlog rpi xx prior cur_log_like
        variance angle_range max_iter un zn = .err e xx)
    ∨ elliptical_slice gwp loglik rcos rsin rlog rpi xx prior cur_log_like
        variance angle_range max_iter un zn = .ok xx cur_log_like
    ∨ ∃ prop cll, elliptical_slice gwp loglik rcos rsin rlog rpi xx prior cur_log_like
        variance angle_range max_iter un zn
      = .ok ⟨prop, xx.S, xx.L, uutOf prop, gwp prop xx.L (some (uutOf prop))⟩ (some cll) := by
  rcases hsx : xx.xx.shape with _ | ⟨v, _ | ⟨p, _ | ⟨N, _ | ⟨d, rest⟩⟩⟩⟩
  · exact Or.inl ⟨SamplingError.valueErrorUnpack, by simp only [elliptical_slice, hsx]⟩
  · exact Or.inl ⟨SamplingError.valueErrorUnpack, by simp only [elliptical_slice, hsx]⟩
  · exact Or.inl ⟨SamplingError.valueErrorUnpack, by simp only [elliptical_slice, hsx]⟩
  · rcases hn : nuOf prior v p N zn with _ | nu
    · exact Or.inl ⟨SamplingError.valueErrorPriorShape,
        by simp only [elliptical_slice, hsx, hn]⟩
    · simp only [elliptical_slice, hsx, hn]
      split
      · next prop uut V cll heq =>
          refine Or.inr (Or.inr ⟨prop, cll, ?_⟩)
          obtain ⟨phi0, hp, h1, h2, h3⟩ :=
            essLoop_accepted_inv gwp loglik rcos rsin xx.xx nu xx.S xx.L variance _ un
              _ _ _ _ _ _ _ _ _ heq
          rw [h1, h2]
      · exact Or.inr (Or.inl rfl)
      · exact Or.inl ⟨_, rfl⟩
      · exact Or.inl ⟨_, rfl⟩
  · exact Or.inl ⟨SamplingError.valueErrorUnpack, by simp only [elliptical_slice, hsx]⟩

end ClaimC9

section ClaimC5

variable {R : Type} [LinearOrderedField R]
variable (rexp : R → R) (kern : NDArray R → R → NDArray R)
variable (pinvh : NDArray R → NDArray R) (fast_logdet : NDArray R → R)
variable (lognstat : R → R → R × R) (lognormal_pdf lognormal_logpdf : R → R → R → R)
variable (rlog : R → R) (rpi : R)

/-- Claim C5: for every strictly positive `initial_theta` (and with `exp`
positive, as the real exponential is), `sample_hyper_kernel` returns a
pair `(sample, accept)` in which: the sample is strictly positive; the
sample equals the freshly drawn log-normal proposal
`exp(mu + sigma * z)` — with `(mu, sigma) = lognstat(initial_theta,
var_proposal)` and `z` the underlying normal draw — exactly when `accept`
is `true`, and equals `initial_theta` otherwise; and `accept` holds if and
only if the fresh uniform draw `u` is below
`min(1, exp(logpunorm(proposal) - logpunorm(current)) *
q(current | proposal) / q(proposal | current))` with `q` the log-normal
proposal density. -/
theorem claim_C5_hyper_kernel (initial_theta var_proposal : R) (t u_mat : NDArray R)
    (mean_prior var_prior : R) (z u : R)
    (htheta : 0 < initial_theta) (hexp : ∀ x : R, 0 < rexp x) :
    0 < (sample_hyper_kernel rexp kern pinvh fast_logdet lognstat lognormal_pdf
        lognormal_logpdf rlog rpi initial_theta var_proposal t u_mat mean_prior
        var_prior z u).1
    ∧ ((sample_hyper_kernel rexp kern pinvh fast_logdet lognstat lognormal_pdf
          lognormal_logpdf rlog rpi initial_theta var_proposal t u_mat mean_prior
          var_prior z u).2 = true →
        (sample_hyper_kernel rexp kern pinvh fast_logdet lognstat lognormal_pdf
          lognormal_logpdf rlog rpi initial_theta var_proposal t u_mat mean_prior
          var_prior z u).1
        = rexp ((lognstat initial_theta var_proposal).1
            + (lognstat initial_theta var_proposal).2 * z))
    ∧ ((sample_hyper_kernel rexp kern pinvh fast_logdet lognstat lognormal_pdf
          lognormal_logpdf rlog rpi initial_theta var_proposal t u_mat mean_prior
          var_prior z u).2 = false →
        (sample_hyper_kernel rexp kern pinvh fast_logdet lognstat lognormal_pdf
          lognormal_logpdf rlog rpi initial_theta var_proposal t u_mat mean_prior
          var_prior z u).1 = initial_theta)
    ∧ ((sample_hyper_kernel rexp kern pinvh fast_logdet lognstat lognormal_pdf
          lognormal_logpdf rlog rpi initial_theta var_proposal t u_mat mean_prior
          var_prior z u).2 = true
        ↔ u < min 1 (rexp
            (logpunorm kern pinvh fast_logdet lognstat lognormal_logpdf rlog rpi
              (rexp ((lognstat initial_theta var_proposal).1
                + (lognstat initial_theta var_proposal).2 * z)) t u_mat
              mean_prior var_prior
            - logpunorm kern pinvh fast_logdet lognstat lognormal_logpdf rlog rpi
              initial_theta t u_mat mean_prior var_prior)
          * (lognormal_pdf initial_theta
              (lognstat (rexp ((lognstat initial_theta var_proposal).1
                + (lognstat initial_theta var_proposal).2 * z)) var_proposal).1
              (lognstat (rexp ((lognstat initial_theta var_proposal).1
                + (lognstat initial_theta var_proposal).2 * z)) var_proposal).2
            / lognormal_pdf (rexp ((lognstat initial_theta var_proposal).1
                + (lognstat initial_theta var_proposal).2 * z))
              (lognstat initial_theta var_proposal).1
              (lognstat initial_theta var_proposal).2))) := by
  refine ⟨?_, ?_, ?_, ?_⟩
  · simp only [sample_hyper_kernel]
    split
    · exact hexp _
    · exact htheta
  · intro h2
    simp only [sample_hyper_kernel] at h2 ⊢
    rw [if_pos h2]
  · intro h2
    simp only [sample_hyper_kernel] at h2 ⊢
    rw [h2]
    simp
  · simp only [sample_hyper_kernel]
    exact decide_eq_true_iff

end ClaimC5

section ClaimC5Witness

/-- A dummy concrete kernel collaborator over `ℚ`. -/
def qKern : NDArray ℚ → ℚ → NDArray ℚ := fun _ _ => qArr111

/-- A dummy concrete `pinvh` collaborator over `ℚ`. -/
def qPinvh : NDArray ℚ → NDArray ℚ := fun x => x

/-- A dummy concrete `fast_logdet` collaborator over `ℚ`. -/
def qFlogdet : NDArray ℚ → ℚ := fun _ => 0

/-- A dummy concrete `lognstat` collaborator over `ℚ`. -/
def qLognstat : ℚ → ℚ → ℚ × ℚ := fun a b => (a, b)

/-- A dummy concrete three-argument density over `ℚ`, constantly `1`. -/
def qPdf : ℚ → ℚ → ℚ → ℚ := fun _ _ _ => 1

/-- Claim C5 (witness): at a concrete input over `ℚ` (with the constant-`1`
function for `exp`, which is everywhere positive, and `initial_theta = 2`)
the returned sample is strictly positive. -/
theorem claim_C5_witness :
    0 < (sample_hyper_kernel qF1 qKern qPinvh qFlogdet qLognstat qPdf qPdf qF0 2
        2 1 qArr111 qArr111 0 1 0 (1 / 2)).1 :=
  (claim_C5_hyper_kernel qF1 qKern qPinvh qFlogdet qLognstat qPdf qPdf qF0 2
    2 1 qArr111 qArr111 0 1 0 (1 / 2) (by norm_num)
    (fun x => by norm_num [qF1])).1

end ClaimC5Witness

section ClaimC6

variable {R : Type} [LinearOrderedField R]

/-- Two lists of the same length agreeing at every `getD` position are
equal. -/
lemma list_eq_of_getD : ∀ {v w : List R}, v.length = w.length →
    (∀ j, v.getD j 0 = w.getD j 0) → v = w
  | [], [], _, _ => rfl
  | [], _ :: _, hl, _ => by simp at hl
  | _ :: _, [], hl, _ => by simp at hl
  | a :: v, b :: w, hl, h => by
      have h0 : a = b := h 0
      have ht : v = w :=
        list_eq_of_getD (by simpa using hl) (fun j => h (j + 1))
      rw [h0, ht]

/-- `List.set` at one index leaves `getD` at a different index unchanged. -/
lemma getD_set_ne : ∀ (l : List R) (i j : ℕ) (x : R), i ≠ j →
    (l.set i x).getD j 0 = l.getD j 0
  | [], _, _, _, _ => rfl
  | _ :: _, 0, 0, _, hij => absurd rfl hij
  | _ :: _, 0, _ + 1, _, _ => rfl
  | _ :: _, _ + 1, 0, _, _ => rfl
  | _ :: l, i + 1, j + 1, x, hij =>
      getD_set_ne l i j x (fun h => hij (by rw [h]))

/-- `List.set` writes the value readable by `getD` at an index inside the
list. -/
lemma getD_set_self : ∀ (l : List R) (i : ℕ) (x : R), i < l.length →
    (l.set i x).getD i 0 = x
  | [], _, _, h => by simp at h
  | _ :: _, 0, _, _ => rfl
  | _ :: l, i + 1, x, h => getD_set_self l i x (by simpa using h)

/-- `getD` past the end of a list returns the default. -/
lemma getD_eq_zero_of_le : ∀ (l : List R) (j : ℕ), l.length ≤ j → l.getD j 0 = 0
  | [], 0, _ => rfl
  | [], _ + 1, _ => rfl
  | _ :: _, 0, h => by simp at h
  | _ :: l, j + 1, h => getD_eq_zero_of_le l j (by simpa using h)

/-- The loop of `sample_L2` agrees with the sequential in-place sweep: as
long as the in-place vector and the accumulator agree outside the indices
still to be processed, the returned accumulator equals the fold of the
per-index update over the in-place vector. -/
lemma sampleL2Go_spec (step : ℕ → List R → R) :
    ∀ (rest : List ℕ) (v w : List R), v.length = w.length →
      (∀ j, j ∉ rest → v.getD j 0 = w.getD j 0) →
      (sampleL2Go step rest v w).2
        = rest.foldl (fun acc i => acc.set i (step i acc)) v := by
  intro rest
  induction rest with
  | nil =>
      intro v w hl h
      exact (list_eq_of_getD hl (fun j => h j (by simp))).symm
  | cons i rest ih =>
      intro v w hl h
      show (sampleL2Go step rest (v.set i (step i v)) (w.set i (step i v))).2
        = rest.foldl (fun acc i => acc.set i (step i acc)) (v.set i (step i v))
      apply ih
      · simp [hl]
      · intro j hj
        by_cases hji : j = i
        · subst hji
          rcases lt_or_le j v.length with hlt | hge
          · rw [getD_set_self v j _ hlt, getD_set_self w j _ (hl ▸ hlt)]
          · rw [List.set_eq_of_length_le hge, List.set_eq_of_length_le (hl ▸ hge),
              getD_eq_zero_of_le v j hge, getD_eq_zero_of_le w j (hl ▸ hge)]
        · rw [getD_set_ne v i j _ (fun hh => hji hh.symm),
            getD_set_ne w i j _ (fun hh => hji hh.symm)]
          exact h j (by simp [hji, hj])

omit [LinearOrderedField R] in
/-- The sequential sweep preserves the length of the vector. -/
lemma seqSweep_length (step : ℕ → List R → R) (n : ℕ) (init : List R) :
    (seqSweep step n init).length = init.length := by
  rw [seqSweep]
  generalize List.range n = l
  induction l generalizing init with
  | nil => rfl
  | cons i l ih => simpa using ih (init.set i (step i init))

/-- Claim C6: `sample_L2` performs one scalar Metropolis-Hastings step for
every free element of `Ltau`, strictly sequentially in index order: it
returns exactly the sequential single-site sweep `seqSweep` in which
element `i`'s step is evaluated on the vector already updated at elements
`0, …, i - 1` (each accepted value is written into `Ltau` before the next
element's step), and the returned vector has the same length as the
input. -/
theorem claim_C6_sequential_sweep
    (gwp : NDArray R → NDArray R → Option (NDArray R) → NDArray R)
    (loglikF : NDArray R → NDArray R → R → R) (llnormal : R → R → R → R)
    (rexp rsqrt : R → R) (rpi : R) (Ltau var_proposal : List R) (S umat : NDArray R)
    (var_err : R) (mu_prior var_prior : List R) (uut : Option (NDArray R))
    (zs us : ℕ → R) :
    sample_L2 gwp loglikF llnormal rexp rsqrt rpi Ltau var_proposal S umat var_err
        mu_prior var_prior uut zs us
      = seqSweep (sampleL2step gwp loglikF llnormal rexp rsqrt rpi var_proposal S
          umat var_err mu_prior var_prior uut zs us) Ltau.length Ltau
    ∧ (sample_L2 gwp loglikF llnormal rexp rsqrt rpi Ltau var_proposal S umat
        var_err mu_prior var_prior uut zs us).length = Ltau.length := by
  have h1 : sample_L2 gwp loglikF llnormal rexp rsqrt rpi Ltau var_proposal S umat
      var_err mu_prior var_prior uut zs us
    = seqSweep (sampleL2step gwp loglikF llnormal rexp rsqrt rpi var_proposal S
        umat var_err mu_prior var_prior uut zs us) Ltau.length Ltau := by
    rw [sample_L2, seqSweep]
    apply sampleL2Go_spec
    · simp
    · intro j hj
      have hge : Ltau.length ≤ j := by
        by_contra hlt
        exact hj (List.mem_range.mpr (by omega))
      rw [getD_eq_zero_of_le Ltau j hge,
        getD_eq_zero_of_le (List.replicate Ltau.length (0 : R)) j (by simpa using hge)]
  refine ⟨h1, ?_⟩
  rw [h1, seqSweep_length]

end ClaimC6

section ClaimC7

variable {R : Type} [LinearOrderedField R]

/-- The normal density is symmetric in its argument and its location. -/
lemma norm_pdf_symm (rexp rsqrt : R → R) (rpi : R) (x loc s : R) :
    norm_pdf rexp rsqrt rpi x loc s = norm_pdf rexp rsqrt rpi loc x s := by
  have h : -(((x - loc) / s) ^ 2) / 2 = -(((loc - x) / s) ^ 2) / 2 := by ring
  rw [norm_pdf, norm_pdf, h]

/-- The normal density is strictly positive when `exp` is positive and the
scale and normalizer are positive. -/
lemma norm_pdf_pos (rexp rsqrt : R → R) (rpi : R) (x loc s : R)
    (hexp : ∀ y : R, 0 < rexp y) (hs : 0 < s) (h2pi : 0 < rsqrt (2 * rpi)) :
    0 < norm_pdf rexp rsqrt rpi x loc s :=
  div_pos (hexp _) (mul_pos hs h2pi)

/-- Claim C7: inside one call of `_sample_ell_comp` the explicitly
computed normal-density correction factor
`q(current | proposal) / q(proposal | current)` equals `1` — both
densities use the same standard deviation `sqrt(var_proposal_i)` and the
normal density is symmetric in argument and location — so the acceptance
probability used equals the symmetric-proposal Metropolis-Hastings ratio
`min(1, exp(Δlogpost))`: the call returns exactly the result of comparing
the uniform draw against that symmetric ratio.  (The positivity
hypotheses on `exp`, on the standard deviation and on the normalizer hold
for the real functions whenever the proposal variance is positive.) -/
theorem claim_C7_symmetric_ratio
    (gwp : NDArray R → NDArray R → Option (NDArray R) → NDArray R)
    (loglikF : NDArray R → NDArray R → R → R) (llnormal : R → R → R → R)
    (rexp rsqrt : R → R) (rpi : R) (Ltaug : List R) (i : ℕ) (sigma2Lprop : R)
    (S umat : NDArray R) (var_err mu_prior var_prior : R)
    (uut : Option (NDArray R)) (z u : R)
    (hexp : ∀ y : R, 0 < rexp y) (hs : 0 < rsqrt sigma2Lprop)
    (h2pi : 0 < rsqrt (2 * rpi)) :
    norm_pdf rexp rsqrt rpi (Ltaug.getD i 0)
        (Ltaug.getD i 0 + rsqrt sigma2Lprop * z) (rsqrt sigma2Lprop)
      / norm_pdf rexp rsqrt rpi (Ltaug.getD i 0 + rsqrt sigma2Lprop * z)
        (Ltaug.getD i 0) (rsqrt sigma2Lprop) = 1
    ∧ sample_ell_comp gwp loglikF llnormal rexp rsqrt rpi Ltaug i sigma2Lprop S umat
        var_err mu_prior var_prior uut z u
      = (if u < min 1 (rexp
            (logp_ell_posterior gwp loglikF llnormal
              (Ltaug.set i (Ltaug.getD i 0 + rsqrt sigma2Lprop * z)) i S umat
              var_err mu_prior var_prior uut
            - logp_ell_posterior gwp loglikF llnormal Ltaug i S umat var_err
              mu_prior var_prior uut))
          then Ltaug.getD i 0 + rsqrt sigma2Lprop * z else Ltaug.getD i 0) := by
  have hq : norm_pdf rexp rsqrt rpi (Ltaug.getD i 0)
      (Ltaug.getD i 0 + rsqrt sigma2Lprop * z) (rsqrt sigma2Lprop)
    / norm_pdf rexp rsqrt rpi (Ltaug.getD i 0 + rsqrt sigma2Lprop * z)
      (Ltaug.getD i 0) (rsqrt sigma2Lprop) = 1 := by
    rw [norm_pdf_symm]
    exact div_self (ne_of_gt (norm_pdf_pos rexp rsqrt rpi _ _ _ hexp hs h2pi))
  refine ⟨hq, ?_⟩
  simp only [sample_ell_comp]
  rw [hq, mul_one]

end ClaimC7

section ClaimC7Witness

/-- The identity function on `ℚ`, standing in for `sqrt` at the concrete
witness input. -/
def qId : ℚ → ℚ := fun x => x

/-- Claim C7 (witness): the correction factor equals `1` at a concrete
input over `ℚ` (`exp` the constant-`1` function, `sqrt` the identity,
proposal variance `4 > 0`, `pi = 2`). -/
theorem claim_C7_witness :
    norm_pdf qF1 qId 2 ([1, 2].getD 0 0) ([1, 2].getD 0 0 + qId 4 * 1) (qId 4)
      / norm_pdf qF1 qId 2 ([1, 2].getD 0 0 + qId 4 * 1) ([1, 2].getD 0 0) (qId 4)
      = 1 :=
  (claim_C7_symmetric_ratio qGwp qLL0 qPdf qF1 qId 2 [1, 2] 0 4 qArr111 qArr111
    0 0 0 none 1 (1 / 2) (fun y => by norm_num [qF1]) (by norm_num [qId])
    (by norm_num [qId])).1

end ClaimC7Witness
